import Mathlib

/-!
Verification of the AniTrakt database parser (src/main.py).

This file gives a shallow embedding of the parts of the program that the
checked properties speak about: the slug generator (TextUtils.slugify), the
ignore-rule evaluator (FilterEngine), the overwrite merger
(DataManager.apply_overwrites), the show-row extractor
(HTMLParser._parse_show_row / parse_media) and the per-kind run loop
(AniTraktParser.run).  Pure functions become Lean functions; fallible code
returns Except; the mutable candidate list of apply_overwrites becomes
explicit list passing through a foldl.  Python ints are Int, Python strings
are String, a JSON condition value is the JVal sum.
-/

set_option maxHeartbeats 1000000

namespace AniTrakt

/-- A value an ignore-rule condition can hold and an attribute value of a
record as Python getattr sees it: a string, an int, or None. -/
inductive JVal where
  | s (v : String)
  | i (v : Int)
  | null
deriving DecidableEq

/-- Movie record, src/main.py lines 39-60.  The BaseMedia fields in
declaration order.  The discriminant field `type` of the dataclass is the
constant "movies" for every Movie and is modelled by the MediaAttrs
instance below rather than by a record field. -/
structure Movie where
  title : String
  mal_id : Int
  trakt_id : Int
  guessed_slug : Option String
deriving DecidableEq

/-- Show record, src/main.py lines 63-67: the BaseMedia fields plus the
season number.  The constant discriminant `type` = "shows" is modelled by
the MediaAttrs instance below. -/
structure Show where
  title : String
  mal_id : Int
  trakt_id : Int
  guessed_slug : Option String
  season : Int
deriving DecidableEq

/-- MediaType = Union[Movie, Show] in the source; the merge and partition
code is duck-typed over the two variants and touches only mal_id.  This
class captures exactly that access. -/
class MediaKey (α : Type) where
  mal_id : α → Int

instance : MediaKey Movie := ⟨Movie.mal_id⟩

instance : MediaKey Show := ⟨Show.mal_id⟩

/-- The mal_id keys of a record list; existing_mal_ids of
src/main.py line 294 and overwrite_mal_ids of line 453 are the set of
these keys (list membership models set membership). -/
def keys {α : Type} [MediaKey α] (l : List α) : List Int :=
  l.map MediaKey.mal_id

/-- Python getattr(item, key, None) as used by
FilterEngine._condition_matches (src/main.py line 220): a field access by
name, with None for a field the variant does not carry. -/
class MediaAttrs (α : Type) where
  getAttr : α → String → JVal

instance : MediaAttrs Movie where
  getAttr item key :=
    if key = "title" then JVal.s item.title
    else if key = "mal_id" then JVal.i item.mal_id
    else if key = "trakt_id" then JVal.i item.trakt_id
    else if key = "guessed_slug" then
      match item.guessed_slug with
      | none => JVal.null
      | some v => JVal.s v
    else if key = "type" then JVal.s "movies"
    else JVal.null

instance : MediaAttrs Show where
  getAttr item key :=
    if key = "title" then JVal.s item.title
    else if key = "mal_id" then JVal.i item.mal_id
    else if key = "trakt_id" then JVal.i item.trakt_id
    else if key = "guessed_slug" then
      match item.guessed_slug with
      | none => JVal.null
      | some v => JVal.s v
    else if key = "season" then JVal.i item.season
    else if key = "type" then JVal.s "shows"
    else JVal.null

/-- The exception taxonomy of src/main.py lines 79-97 plus the Python
built-in errors the parser can raise (ValueError from int() and the
dataclass validators, IndexError from an empty split). -/
inductive AniTraktError where
  | network (msg : String)
  | parse (msg : String)
  | fileOp (msg : String)
  | valueErr (msg : String)
  | indexErr
deriving DecidableEq

/-! Slug generator, TextUtils.slugify (src/main.py lines 104-120). -/

/-- A character matched by the regex class \w (word character); ASCII
alphanumerics and the underscore. -/
def isWordChar (c : Char) : Bool :=
  c.isAlphanum || c == '_'

/-- A character of the class [\s_-]: collapsed to a single dash by
re.sub(r"[\s_\-]+", "-", alpha) on line 119. -/
def isSepChar (c : Char) : Bool :=
  c.isWhitespace || c == '_' || c == '-'

/-- str.replace of a single character by a string, applied to each
occurrence. -/
def replaceCharList (l : List Char) (ch : Char) (repl : List Char) : List Char :=
  l.foldr (fun c acc => if c == ch then repl ++ acc else c :: acc) []

/-- The loop of src/main.py lines 114-115: the char_maps substitutions
applied one after the other.  The table itself lives in extras/langmap
(not under src/), so it is a parameter; every theorem below holds for an
arbitrary table. -/
def applyCharMaps (maps : List (Char × String)) (l : List Char) : List Char :=
  maps.foldl (fun acc p => replaceCharList acc p.1 p.2.data) l

/-- Leading and trailing characters satisfying p removed from the end:
the reversed dropWhile. -/
def dropTrailing (p : Char → Bool) (l : List Char) : List Char :=
  (l.reverse.dropWhile p).reverse

/-- Both ends trimmed: Python str.strip for whitespace, and the regex
re.sub(r"^-+|-+$", "", dash) for dashes (line 120). -/
def trimEnds (p : Char → Bool) (l : List Char) : List Char :=
  dropTrailing p (l.dropWhile p)

/-- State machine for re.sub(r"[\s_\-]+", "-", alpha) of line 119: the
flag records whether the previous character was a separator, so a
maximal separator run emits exactly one dash, at its first character. -/
def collapseRunsAux (prevSep : Bool) : List Char → List Char
  | [] => []
  | c :: rest =>
    if isSepChar c then
      if prevSep then collapseRunsAux true rest
      else '-' :: collapseRunsAux true rest
    else c :: collapseRunsAux false rest

/-- re.sub(r"[\s_\-]+", "-", alpha) of line 119: every maximal run of
separator characters becomes a single dash. -/
def collapseRuns (l : List Char) : List Char :=
  collapseRunsAux false l

/-- The character pipeline of slugify after the numeric guard: lower-case
and strip (line 111), char-map substitution (lines 114-115), non-word
non-space characters to dashes (line 118), run collapse (line 119) and
end-dash stripping (line 120). -/
def slugifyChars (maps : List (Char × String)) (t : List Char) : List Char :=
  let lower := trimEnds Char.isWhitespace (t.map Char.toLower)
  let mapped := applyCharMaps maps lower
  let alpha := mapped.map (fun c => if isWordChar c || c.isWhitespace then c else '-')
  trimEnds (fun c => c == '-') (collapseRuns alpha)

/-- re.match(r"^\d+$", title) of src/main.py line 107: one or more
digits spanning the whole title, where Python's $ also matches just
before a newline that ends the string — so both "123" and a title of
digits followed by one final newline match (and return None from
slugify), while a lone newline, an inner newline or two trailing
newlines do not.  The digit class is Char.isDigit, the ASCII digits;
Python's \d also matches the other Unicode decimal digits.  No theorem
below depends on the width of this class: none asserts that a
non-matching title produces a slug. -/
def numericTitleMatch (l : List Char) : Bool :=
  let core := if l.getLast? = some '\n' then l.dropLast else l
  !core.isEmpty && core.all Char.isDigit

/-- TextUtils.slugify (src/main.py lines 104-120): None for an empty
title and for a title the numeric-guard regex matches, the slug of the
character pipeline otherwise. -/
def slugify (maps : List (Char × String)) (title : String) : Option String :=
  if title.data.isEmpty || numericTitleMatch title.data then none
  else some (String.mk (slugifyChars maps title.data))

/-! Overwrite merger, DataManager.apply_overwrites
(src/main.py lines 286-309). -/

/-- The inner replacement loop of lines 303-307: the first item whose
mal_id equals the overwrite item's mal_id is replaced, the scan stops
(break); with no match the list is unchanged. -/
def replaceFirst {α : Type} [MediaKey α] : List α → α → List α
  | [], _ => []
  | x :: xs, o =>
    if MediaKey.mal_id x = MediaKey.mal_id o then o :: xs
    else x :: replaceFirst xs o

/-- One iteration of the loop at lines 296-307: an overwrite item whose
mal_id is not among the pre-computed existing ids is appended, otherwise
it replaces the first matching item. -/
def overwriteStep {α : Type} [MediaKey α] (existing : List Int) (acc : List α) (o : α) : List α :=
  if MediaKey.mal_id o ∈ existing then replaceFirst acc o else acc ++ [o]

/-- DataManager.apply_overwrites: on an empty overwrite list the data is
returned unchanged (lines 289-291); otherwise existing_mal_ids is
computed once from the incoming data (line 294) and each overwrite item
is folded in (lines 296-307). -/
def applyOverwrites {α : Type} [MediaKey α] (data ov : List α) : List α :=
  if ov.isEmpty then data
  else ov.foldl (overwriteStep (keys data)) data

/-- The region of the merge result that aligns with the original
candidates: the overwrite items whose key is an existing key, folded in
by first-match replacement.  Proof-side decomposition of applyOverwrites;
the theorem applyOverwrites_region_append ties it to the source
function. -/
def mergeRegion {α : Type} [MediaKey α] (data ov : List α) : List α :=
  (ov.filter (fun o => decide (MediaKey.mal_id o ∈ keys data))).foldl replaceFirst data

/-- The boolean test "this record's mal_id equals k", used to locate the
item the replacement loop of lines 303-307 rewrites. -/
def keyPred {α : Type} [MediaKey α] (k : Int) : α → Bool :=
  fun x => MediaKey.mal_id x == k

/-! Provenance partition, AniTraktParser._process_media_type
(src/main.py lines 451-456). -/

/-- overwritten_items of line 455: the records of the merged data whose
mal_id appears among the overwrite records' mal_ids. -/
def overwrittenPartOf {α : Type} [MediaKey α] (data ov : List α) : List α :=
  data.filter (fun item => decide (MediaKey.mal_id item ∈ keys ov))

/-- remote_items of line 456: the records whose mal_id appears in no
overwrite record. -/
def remotePartOf {α : Type} [MediaKey α] (data ov : List α) : List α :=
  data.filter (fun item => decide (MediaKey.mal_id item ∉ keys ov))

/-! Ignore-rule evaluator, FilterEngine (src/main.py lines 211-276). -/

/-- One key/value entry of a condition dict checked against the item,
following FilterEngine._condition_matches lines 219-232: mismatched
None-ness fails, matching None-ness passes, otherwise exact equality. -/
def condEntryMatches {α : Type} [MediaAttrs α] (item : α) (key : String) (v : JVal) : Bool :=
  match v, MediaAttrs.getAttr item key with
  | JVal.null, JVal.null => true
  | JVal.null, _ => false
  | _, JVal.null => false
  | v, iv => decide (v = iv)

/-- FilterEngine._condition_matches (lines 217-234): every entry of the
condition dict must match; the empty condition vacuously matches. -/
def conditionMatches {α : Type} [MediaAttrs α] (item : α) (cond : List (String × JVal)) : Bool :=
  cond.all (fun kv => condEntryMatches item kv.1 kv.2)

/-- An ignore rule as loaded from the JSON rule file
(src/main.py lines 238-244): provenance scope in `source`, combinator
synonym set in `type`, a list of condition dicts, a description. -/
structure IgnoreRule where
  source : String
  type : String
  conditions : List (List (String × JVal))
  description : String
deriving DecidableEq

/-- One rule of the loop body of FilterEngine._should_ignore_item
(lines 238-256): the rule is skipped unless its source is "all" or the
current phase; an ALL/AND rule fires when its condition list is non-empty
and every condition matches; an ANY/OR rule fires when some condition
matches. -/
def ruleFires {α : Type} [MediaAttrs α] (item : α) (rule : IgnoreRule) (source : String) : Bool :=
  if rule.source ≠ "all" ∧ rule.source ≠ source then false
  else if rule.type = "ALL" ∨ rule.type = "AND" then
    !rule.conditions.isEmpty && rule.conditions.all (fun cond => conditionMatches item cond)
  else if rule.type = "ANY" ∨ rule.type = "OR" then
    rule.conditions.any (fun cond => conditionMatches item cond)
  else false

/-- FilterEngine._should_ignore_item (lines 236-258): the item is ignored
when some rule fires (the source returns True at the first firing rule,
which is the same predicate). -/
def shouldIgnoreItem {α : Type} [MediaAttrs α] (item : α) (rules : List IgnoreRule) (source : String) : Bool :=
  rules.any (fun rule => ruleFires item rule source)

/-- FilterEngine.filter_items (lines 260-276): with no rules the data is
returned unchanged, otherwise the ignored items are dropped, survivors in
order. -/
def filterItems {α : Type} [MediaAttrs α] (rules : List IgnoreRule) (data : List α) (source : String) : List α :=
  if rules.isEmpty then data
  else data.filter (fun item => !shouldIgnoreItem item rules source)

/-! File reading, FileManager.read_json (src/main.py lines 145-157). -/

/-- The three states a configuration file can be in from the reader's
point of view. -/
inductive FileContent (α : Type) where
  | absent
  | malformed (msg : String)
  | valid (data : α)

/-- FileManager.read_json: FileNotFoundError yields the empty list
(lines 151-153), a JSON decode error raises FileOperationError
(lines 154-155), a readable file yields its data. -/
def readJson {β : Type} : FileContent (List β) → Except AniTraktError (List β)
  | FileContent.absent => Except.ok []
  | FileContent.malformed msg => Except.error (AniTraktError.fileOp msg)
  | FileContent.valid d => Except.ok d

/-- filter_items applied to the rules read from the ignore file
(load_ignore_rules, line 262): a raised file error propagates. -/
def filterItemsFromFile {α : Type} [MediaAttrs α] (fc : FileContent (List IgnoreRule))
    (data : List α) (source : String) : Except AniTraktError (List α) :=
  (readJson fc).map (fun rules => filterItems rules data source)

/-- apply_overwrites applied to the overwrite records read from the
overwrite file (load_overwrite_data, line 288): a raised file error
propagates. -/
def applyOverwritesFromFile {α : Type} [MediaKey α] (fc : FileContent (List α))
    (data : List α) : Except AniTraktError (List α) :=
  (readJson fc).map (fun ov => applyOverwrites data ov)

/-! Show-row extraction, HTMLParser._parse_show_row and parse_media
(src/main.py lines 360-424). -/

/-- An anchor element: its href attribute and its text. -/
structure Link where
  href : String
  text : String
deriving DecidableEq

/-- One fragment of the second cell of a show row, after the split on
the line-break marker (line 374): the mal anchor found in it, if any, and
the fragment's full text (season_soup.get_text()). -/
structure Fragment where
  malLink : Option Link
  text : String
deriving DecidableEq

/-- A show row with its two cells already located: the trakt anchor of
the first cell and the fragments of the second.  A row with fewer than
two cells raises ParseError before this data exists (lines 362-364); the
claims below concern rows with both cells present. -/
structure ShowRowData where
  traktLink : Option Link
  fragments : List Fragment
deriving DecidableEq

/-- str.split(sep) for a one-character separator, on the character
list. -/
def splitOnChar (sep : Char) : List Char → List (List Char)
  | [] => [[]]
  | c :: rest =>
    match splitOnChar sep rest with
    | [] => [[]]
    | h :: t => if c == sep then [] :: h :: t else (c :: h) :: t

/-- href.split("/")[-1] of lines 349, 370, 382: the final path segment. -/
def lastSegment (href : String) : String :=
  String.mk ((splitOnChar '/' href.data).getLastD [])

/-- The numeric value of a digit list, most significant first. -/
def digitsToNat (l : List Char) : Nat :=
  l.foldl (fun n c => 10 * n + (c.toNat - 48)) 0

/-- Python int() as applied to id segments and season tokens: a
ValueError unless the characters form a (non-empty) decimal digit
string. -/
def parseIntChars (l : List Char) : Except AniTraktError Int :=
  if !l.isEmpty && l.all Char.isDigit then Except.ok (digitsToNat l : Int)
  else Except.error (AniTraktError.valueErr (String.mk l))

/-- Python int() on a string. -/
def parseIntStr (str : String) : Except AniTraktError Int :=
  parseIntChars str.data

/-- season_text.split()[0] of line 384: the first whitespace-delimited
token, an IndexError when there is none. -/
def firstToken (str : String) : Option (List Char) :=
  match str.data.dropWhile Char.isWhitespace with
  | [] => none
  | c :: rest => some ((c :: rest).takeWhile (fun ch => !ch.isWhitespace))

/-- Decidable equality of Except results, for evaluating parse outcomes
on concrete rows. -/
instance {ε σ : Type} [DecidableEq ε] [DecidableEq σ] :
    DecidableEq (Except ε σ)
  | Except.error a, Except.error b =>
    if h : a = b then Decidable.isTrue (h ▸ rfl)
    else Decidable.isFalse (fun he => h (Except.error.inj he))
  | Except.error _, Except.ok _ =>
    Decidable.isFalse (fun he => Except.noConfusion he)
  | Except.ok _, Except.error _ =>
    Decidable.isFalse (fun he => Except.noConfusion he)
  | Except.ok a, Except.ok b =>
    if h : a = b then Decidable.isTrue (h ▸ rfl)
    else Decidable.isFalse (fun he => h (Except.ok.inj he))

/-- The Show dataclass constructor with its __post_init__ validation
(lines 47-72): empty title, ids below 1 or season below 1 raise
ValueError. -/
def mkShow (title : String) (malId traktId season : Int) (slug : Option String) :
    Except AniTraktError Show :=
  if title = "" then Except.error (AniTraktError.valueErr "Title cannot be empty")
  else if malId < 1 then Except.error (AniTraktError.valueErr "MAL ID must be non-negative")
  else if traktId < 1 then Except.error (AniTraktError.valueErr "Trakt ID must be non-negative")
  else if season < 1 then Except.error (AniTraktError.valueErr "Season must be higher than 0")
  else Except.ok ⟨title, malId, traktId, slug, season⟩

/-- The fragment loop of _parse_show_row (lines 375-393).  A fragment
with no mal anchor is skipped (continue, lines 379-380); otherwise the
mal id is int() of the href's last segment (line 382), the season is
int() of the first text token minus its leading character (line 384), the
title prefers the mal anchor's text (line 385), and the Show is
constructed with the slug of the trakt anchor's text.  Any raised error
propagates out of the whole loop: there is no per-fragment handler in the
source. -/
def parseFragments (cmap : List (Char × String)) (traktId : Int) (traktText : String) :
    List Fragment → Except AniTraktError (List Show)
  | [] => Except.ok []
  | frag :: rest =>
    match frag.malLink with
    | none => parseFragments cmap traktId traktText rest
    | some malLink => do
      let malId ← parseIntStr (lastSegment malLink.href)
      let tok ← match firstToken frag.text with
        | some t => Except.ok t
        | none => Except.error AniTraktError.indexErr
      let season ← parseIntChars (tok.drop 1)
      let title := if malLink.text ≠ "" then malLink.text else traktText
      let sh ← mkShow title malId traktId season (slugify cmap traktText)
      let others ← parseFragments cmap traktId traktText rest
      Except.ok (sh :: others)

/-- HTMLParser._parse_show_row (lines 360-395): a missing trakt anchor is
a ParseError, the trakt id is int() of the href's last segment, then the
fragments of the second cell are parsed. -/
def parseShowRow (cmap : List (Char × String)) (row : ShowRowData) :
    Except AniTraktError (List Show) :=
  match row.traktLink with
  | none => Except.error (AniTraktError.parse "Missing Trakt link in show row")
  | some tl => do
    let traktId ← parseIntStr (lastSegment tl.href)
    parseFragments cmap traktId tl.text row.fragments

/-- The row loop of HTMLParser.parse_media for shows (lines 409-422): a
row whose parse raises is logged and skipped (the except/continue), the
records of the other rows are collected in order. -/
def parseMediaShows (cmap : List (Char × String)) : List ShowRowData → List Show
  | [] => []
  | row :: rest =>
    match parseShowRow cmap row with
    | Except.error _ => parseMediaShows cmap rest
    | Except.ok shows => shows ++ parseMediaShows cmap rest

/-! Run loop, AniTraktParser.run (src/main.py lines 474-490). -/

/-- The two media kinds iterated by run. -/
inductive MediaLiteral where
  | movies
  | shows
deriving DecidableEq

/-- The for-loop of run (lines 480-481) with exception propagation:
_process_media_type is abstracted as a function from the kind to either
an error or the output it writes.  The result records, in order, the
outputs written before the run ended, and the error that ended it, if
any.  _process_media_type re-raises every error (lines 470-472) and run
re-raises in turn (lines 488-490), so the first error stops the loop. -/
def runKindsList {β : Type} (proc : MediaLiteral → Except AniTraktError β) :
    List MediaLiteral → List (MediaLiteral × β) × Option AniTraktError
  | [] => ([], none)
  | k :: rest =>
    match proc k with
    | Except.error e => ([], some e)
    | Except.ok out =>
      let r := runKindsList proc rest
      ((k, out) :: r.1, r.2)

/-- AniTraktParser.run: the loop over ["movies", "shows"] in that
order. -/
def runAll {β : Type} (proc : MediaLiteral → Except AniTraktError β) :
    List (MediaLiteral × β) × Option AniTraktError :=
  runKindsList proc [MediaLiteral.movies, MediaLiteral.shows]

/-! Lemmas about keys and replaceFirst. -/

section MergeLemmas

variable {α : Type} [MediaKey α]

@[simp]
theorem keys_nil : keys ([] : List α) = [] := rfl

@[simp]
theorem keys_cons (x : α) (xs : List α) :
    keys (x :: xs) = MediaKey.mal_id x :: keys xs := rfl

@[simp]
theorem keys_append (l₁ l₂ : List α) : keys (l₁ ++ l₂) = keys l₁ ++ keys l₂ := by
  simp [keys]

theorem mem_keys_of_mem {x : α} {l : List α} (h : x ∈ l) :
    MediaKey.mal_id x ∈ keys l :=
  List.mem_map_of_mem _ h

@[simp]
theorem keys_replaceFirst (l : List α) (o : α) :
    keys (replaceFirst l o) = keys l := by
  induction l with
  | nil => rfl
  | cons x xs ih =>
    by_cases h : MediaKey.mal_id x = MediaKey.mal_id o
    · simp [replaceFirst, h]
    · simpa [replaceFirst, h] using ih

theorem replaceFirst_of_not_mem {l : List α} {o : α}
    (h : MediaKey.mal_id o ∉ keys l) : replaceFirst l o = l := by
  induction l with
  | nil => rfl
  | cons x xs ih =>
    have h1 : MediaKey.mal_id x ≠ MediaKey.mal_id o := by
      intro he; exact h (by simp [← he])
    have h2 : MediaKey.mal_id o ∉ keys xs := by
      intro hm; exact h (by simp [hm])
    simp [replaceFirst, h1, ih h2]

theorem replaceFirst_append_left {r : List α} (a : List α) {o : α}
    (h : MediaKey.mal_id o ∈ keys r) :
    replaceFirst (r ++ a) o = replaceFirst r o ++ a := by
  induction r with
  | nil => simp at h
  | cons x xs ih =>
    by_cases hx : MediaKey.mal_id x = MediaKey.mal_id o
    · simp [replaceFirst, hx]
    · have h' : MediaKey.mal_id o ∈ keys xs := by
        rcases (by simpa using h : MediaKey.mal_id o = MediaKey.mal_id x ∨
            MediaKey.mal_id o ∈ keys xs) with h1 | h2
        · exact absurd h1.symm hx
        · exact h2
      simp [replaceFirst, hx, ih h']

theorem foldl_overwriteStep_split (ex : List Int) (ov : List α) :
    ∀ (r a : List α), keys r = ex →
      ov.foldl (overwriteStep ex) (r ++ a)
        = (ov.filter fun o => decide (MediaKey.mal_id o ∈ ex)).foldl replaceFirst r
          ++ (a ++ ov.filter fun o => decide (MediaKey.mal_id o ∉ ex)) := by
  induction ov with
  | nil => intro r a _; simp
  | cons o os ih =>
    intro r a hr
    by_cases h : MediaKey.mal_id o ∈ ex
    · have hmem : MediaKey.mal_id o ∈ keys r := hr ▸ h
      have step : overwriteStep ex (r ++ a) o = replaceFirst r o ++ a := by
        rw [overwriteStep, if_pos h, replaceFirst_append_left a hmem]
      rw [List.foldl_cons, step,
        ih (replaceFirst r o) a (by rw [keys_replaceFirst]; exact hr)]
      simp [List.filter_cons, h]
    · have step : overwriteStep ex (r ++ a) o = r ++ (a ++ [o]) := by
        rw [overwriteStep, if_neg h, List.append_assoc]
      rw [List.foldl_cons, step, ih r (a ++ [o]) hr]
      simp [List.filter_cons, h]

theorem applyOverwrites_region_append (data ov : List α) :
    applyOverwrites data ov
      = mergeRegion data ov
        ++ ov.filter fun o => decide (MediaKey.mal_id o ∉ keys data) := by
  by_cases h : ov.isEmpty
  · have hnil : ov = [] := by cases ov <;> simp_all
    subst hnil; simp [applyOverwrites, mergeRegion]
  · rw [applyOverwrites, if_neg h]
    have := foldl_overwriteStep_split (keys data) ov data [] rfl
    simpa [mergeRegion] using this

theorem keys_foldl_replaceFirst (l : List α) :
    ∀ acc : List α, keys (l.foldl replaceFirst acc) = keys acc := by
  induction l with
  | nil => intro acc; rfl
  | cons o os ih => intro acc; rw [List.foldl_cons, ih, keys_replaceFirst]

theorem keys_mergeRegion (data ov : List α) :
    keys (mergeRegion data ov) = keys data :=
  keys_foldl_replaceFirst _ _

theorem replaceFirst_forall₂ {ov c acc : List α} {o : α} (ho : o ∈ ov)
    (h : List.Forall₂
      (fun x y => x = y ∨ (x ∈ ov ∧ MediaKey.mal_id x = MediaKey.mal_id y)) acc c) :
    List.Forall₂
      (fun x y => x = y ∨ (x ∈ ov ∧ MediaKey.mal_id x = MediaKey.mal_id y))
      (replaceFirst acc o) c := by
  induction h with
  | nil => exact List.Forall₂.nil
  | @cons x y xs ys hxy htail ih =>
    by_cases hx : MediaKey.mal_id x = MediaKey.mal_id o
    · simp only [replaceFirst, if_pos hx]
      refine List.Forall₂.cons (Or.inr ⟨ho, ?_⟩) htail
      rcases hxy with rfl | ⟨_, hk⟩
      · exact hx.symm
      · exact hx.symm.trans hk
    · simp only [replaceFirst, if_neg hx]
      exact List.Forall₂.cons hxy ih

theorem foldl_replaceFirst_forall₂ {ov : List α} (l : List α)
    (hl : ∀ o ∈ l, o ∈ ov) :
    ∀ {acc c : List α},
      List.Forall₂
        (fun x y => x = y ∨ (x ∈ ov ∧ MediaKey.mal_id x = MediaKey.mal_id y)) acc c →
      List.Forall₂
        (fun x y => x = y ∨ (x ∈ ov ∧ MediaKey.mal_id x = MediaKey.mal_id y))
        (l.foldl replaceFirst acc) c := by
  induction l with
  | nil => intro acc c h; exact h
  | cons o os ih =>
    intro acc c h
    rw [List.foldl_cons]
    exact ih (fun o' ho' => hl o' (List.mem_cons_of_mem _ ho'))
      (replaceFirst_forall₂ (hl o (List.mem_cons_self _ _)) h)

theorem mergeRegion_forall₂ (c ov : List α) :
    List.Forall₂
      (fun x y => x = y ∨ (x ∈ ov ∧ MediaKey.mal_id x = MediaKey.mal_id y))
      (mergeRegion c ov) c := by
  refine foldl_replaceFirst_forall₂ _ (fun o ho => (List.mem_filter.mp ho).1) ?_
  exact List.forall₂_same.mpr (fun x _ => Or.inl rfl)

theorem mem_replaceFirst_cases {acc : List α} {o x : α}
    (hnd : (keys acc).Nodup) (hx : x ∈ replaceFirst acc o) :
    x = o ∨ (x ∈ acc ∧ MediaKey.mal_id x ≠ MediaKey.mal_id o) ∨
      (MediaKey.mal_id o ∉ keys acc ∧ x ∈ acc) := by
  induction acc with
  | nil => simp [replaceFirst] at hx
  | cons a as ih =>
    rw [keys_cons, List.nodup_cons] at hnd
    by_cases ha : MediaKey.mal_id a = MediaKey.mal_id o
    · simp only [replaceFirst, if_pos ha] at hx
      rcases List.mem_cons.mp hx with rfl | hxs
      · exact Or.inl rfl
      · refine Or.inr (Or.inl ⟨List.mem_cons_of_mem _ hxs, fun hk => ?_⟩)
        exact hnd.1 ((ha.trans hk.symm) ▸ mem_keys_of_mem hxs)
    · simp only [replaceFirst, if_neg ha] at hx
      rcases List.mem_cons.mp hx with rfl | hxs
      · exact Or.inr (Or.inl ⟨List.mem_cons_self _ _, ha⟩)
      · rcases ih hnd.2 hxs with h1 | h2 | h3
        · exact Or.inl h1
        · exact Or.inr (Or.inl ⟨List.mem_cons_of_mem _ h2.1, h2.2⟩)
        · refine Or.inr (Or.inr ⟨?_, List.mem_cons_of_mem _ h3.2⟩)
          intro hm
          rcases List.mem_cons.mp (by simpa using hm) with h4 | h5
          · exact ha h4.symm
          · exact h3.1 h5

theorem mem_foldl_replaceFirst {ov : List α} (l : List α)
    (hl : ∀ o ∈ l, o ∈ ov) :
    ∀ (acc : List α), (keys acc).Nodup →
      ∀ x ∈ l.foldl replaceFirst acc,
        x ∈ ov ∨ (x ∈ acc ∧ MediaKey.mal_id x ∉ keys l) := by
  induction l with
  | nil => intro acc _ x hx; exact Or.inr ⟨hx, by simp⟩
  | cons o os ih =>
    intro acc hnd x hx
    rw [List.foldl_cons] at hx
    have hnd' : (keys (replaceFirst acc o)).Nodup := by
      rw [keys_replaceFirst]; exact hnd
    rcases ih (fun o' h => hl o' (List.mem_cons_of_mem _ h)) _ hnd' x hx with
      h | ⟨hx', hnk⟩
    · exact Or.inl h
    · rcases mem_replaceFirst_cases hnd hx' with rfl | ⟨hacc, hne⟩ | ⟨hno, hacc⟩
      · exact Or.inl (hl _ (List.mem_cons_self _ _))
      · refine Or.inr ⟨hacc, ?_⟩
        rw [keys_cons, List.mem_cons]
        rintro (h1 | h2)
        · exact hne h1
        · exact hnk h2
      · have hne : MediaKey.mal_id x ≠ MediaKey.mal_id o :=
          fun he => hno (he ▸ mem_keys_of_mem hacc)
        refine Or.inr ⟨hacc, ?_⟩
        rw [keys_cons, List.mem_cons]
        rintro (h1 | h2)
        · exact hne h1
        · exact hnk h2

theorem nodup_keys_filter (p : α → Bool) {l : List α}
    (h : (keys l).Nodup) : (keys (l.filter p)).Nodup :=
  h.sublist (List.Sublist.map MediaKey.mal_id (List.filter_sublist l))

theorem find?_replaceFirst_self {acc : List α} {o : α}
    (h : MediaKey.mal_id o ∈ keys acc) :
    (replaceFirst acc o).find? (keyPred (MediaKey.mal_id o)) = some o := by
  induction acc with
  | nil => simp at h
  | cons a as ih =>
    by_cases ha : MediaKey.mal_id a = MediaKey.mal_id o
    · simp only [replaceFirst, if_pos ha]
      rw [List.find?_cons_of_pos]
      simp [keyPred]
    · simp only [replaceFirst, if_neg ha]
      rw [List.find?_cons_of_neg]
      · refine ih ?_
        rcases (by simpa using h : MediaKey.mal_id o = MediaKey.mal_id a ∨
            MediaKey.mal_id o ∈ keys as) with h1 | h2
        · exact absurd h1.symm ha
        · exact h2
      · simp [keyPred, ha]

theorem find?_replaceFirst_ne {acc : List α} {o' : α} {k : Int}
    (h : MediaKey.mal_id o' ≠ k) :
    (replaceFirst acc o').find? (keyPred k) = acc.find? (keyPred k) := by
  induction acc with
  | nil => rfl
  | cons a as ih =>
    by_cases ha : MediaKey.mal_id a = MediaKey.mal_id o'
    · simp only [replaceFirst, if_pos ha]
      rw [List.find?_cons_of_neg, List.find?_cons_of_neg]
      · simp [keyPred]; exact ha ▸ h
      · simp [keyPred]; exact h
    · simp only [replaceFirst, if_neg ha]
      by_cases hk : keyPred k a = true
      · rw [List.find?_cons_of_pos _ hk, List.find?_cons_of_pos _ hk]
      · rw [List.find?_cons_of_neg _ hk, List.find?_cons_of_neg _ hk, ih]

theorem find?_foldl_replaceFirst_ne {k : Int} (l : List α)
    (hl : ∀ o' ∈ l, MediaKey.mal_id o' ≠ k) :
    ∀ acc : List α,
      (l.foldl replaceFirst acc).find? (keyPred k) = acc.find? (keyPred k) := by
  induction l with
  | nil => intro acc; rfl
  | cons o os ih =>
    intro acc
    rw [List.foldl_cons, ih (fun o' h => hl o' (List.mem_cons_of_mem _ h)),
      find?_replaceFirst_ne (hl o (List.mem_cons_self _ _))]

theorem replaceFirst_of_find?_self {l : List α} {o : α}
    (h : l.find? (keyPred (MediaKey.mal_id o)) = some o) :
    replaceFirst l o = l := by
  induction l with
  | nil => rfl
  | cons a as ih =>
    by_cases ha : MediaKey.mal_id a = MediaKey.mal_id o
    · rw [List.find?_cons_of_pos _ (by simp [keyPred, ha])] at h
      obtain rfl : a = o := by injection h
      simp [replaceFirst]
    · rw [List.find?_cons_of_neg _ (by simp [keyPred, ha])] at h
      simp only [replaceFirst, if_neg ha, ih h]

theorem find?_of_nodup_mem {l : List α} {o : α}
    (hnd : (keys l).Nodup) (ho : o ∈ l) :
    l.find? (keyPred (MediaKey.mal_id o)) = some o := by
  induction l with
  | nil => cases ho
  | cons a as ih =>
    rw [keys_cons, List.nodup_cons] at hnd
    rcases List.mem_cons.mp ho with rfl | has
    · rw [List.find?_cons_of_pos]
      simp [keyPred]
    · have hne : MediaKey.mal_id a ≠ MediaKey.mal_id o :=
        fun he => hnd.1 (he ▸ mem_keys_of_mem has)
      rw [List.find?_cons_of_neg _ (by simp [keyPred]; exact hne), ih hnd.2 has]

theorem find?_foldl_replaceFirst_mem (l : List α) (hnd : (keys l).Nodup) :
    ∀ acc : List α, (∀ o' ∈ l, MediaKey.mal_id o' ∈ keys acc) →
      ∀ o ∈ l,
        (l.foldl replaceFirst acc).find? (keyPred (MediaKey.mal_id o)) = some o := by
  induction l with
  | nil => intro _ _ o ho; cases ho
  | cons o₀ os ih =>
    intro acc hacc o ho
    rw [keys_cons, List.nodup_cons] at hnd
    rw [List.foldl_cons]
    rcases List.mem_cons.mp ho with rfl | hos
    · have h1 : (replaceFirst acc o).find? (keyPred (MediaKey.mal_id o)) = some o :=
        find?_replaceFirst_self (hacc o (List.mem_cons_self _ _))
      have h2 : ∀ o' ∈ os, MediaKey.mal_id o' ≠ MediaKey.mal_id o :=
        fun o' h he => hnd.1 (he ▸ mem_keys_of_mem h)
      rw [find?_foldl_replaceFirst_ne os h2, h1]
    · refine ih hnd.2 _ ?_ o hos
      intro o' h
      rw [keys_replaceFirst]
      exact hacc o' (List.mem_cons_of_mem _ h)

theorem find?_append_some {γ : Type} {l₁ l₂ : List γ} {p : γ → Bool} {x : γ}
    (h : l₁.find? p = some x) : (l₁ ++ l₂).find? p = some x := by
  induction l₁ with
  | nil => simp [List.find?] at h
  | cons a as ih =>
    by_cases hp : p a = true
    · rw [List.find?_cons_of_pos _ hp] at h
      rw [List.cons_append, List.find?_cons_of_pos _ hp]
      exact h
    · rw [List.find?_cons_of_neg _ hp] at h
      rw [List.cons_append, List.find?_cons_of_neg _ hp]
      exact ih h

theorem find?_append_none {γ : Type} {l₁ l₂ : List γ} {p : γ → Bool}
    (h : l₁.find? p = none) : (l₁ ++ l₂).find? p = l₂.find? p := by
  induction l₁ with
  | nil => rfl
  | cons a as ih =>
    by_cases hp : p a = true
    · rw [List.find?_cons_of_pos _ hp] at h
      cases h
    · rw [List.find?_cons_of_neg _ hp] at h
      rw [List.cons_append, List.find?_cons_of_neg _ hp]
      exact ih h

theorem foldl_fixed {γ δ : Type} {f : γ → δ → γ} {acc : γ} (l : List δ)
    (h : ∀ x ∈ l, f acc x = acc) : l.foldl f acc = acc := by
  induction l with
  | nil => rfl
  | cons a as ih =>
    rw [List.foldl_cons, h a (List.mem_cons_self _ _)]
    exact ih (fun x hx => h x (List.mem_cons_of_mem _ hx))

end MergeLemmas

/-! Claim C1: records of the overwritten partition come from the
overwrite input. -/

/-- C1, counterexample to the frozen claim.  With two scraped candidates
sharing mal_id 5, apply_overwrites replaces only the first (the inner
loop breaks); the second candidate keeps its scraped fields, yet its
mal_id is in the override set, so it lands in the overwritten partition
while being field-for-field equal to no overwrite record. -/
theorem c1_overwritten_partition_counterexample :
    (⟨"B", 5, 2, none, 1⟩ : Show) ∈
        overwrittenPartOf
          (applyOverwrites [(⟨"A", 5, 1, none, 1⟩ : Show), ⟨"B", 5, 2, none, 1⟩]
            [(⟨"O", 5, 3, none, 1⟩ : Show)])
          [(⟨"O", 5, 3, none, 1⟩ : Show)]
      ∧ (⟨"B", 5, 2, none, 1⟩ : Show) ∉ [(⟨"O", 5, 3, none, 1⟩ : Show)]
      ∧ (⟨"B", 5, 2, none, 1⟩ : Show) ≠ (⟨"O", 5, 3, none, 1⟩ : Show) := by
  decide

/-- C1, amended: provided the candidate list carries pairwise distinct
mal_ids (which every scraped-then-filtered list of distinct season
entries has, per the data model), every record of the final output lying
in the overwritten partition (its mal_id appears among the overwrite
records' mal_ids) is field-for-field one of the overwrite records — never
a scraped candidate that merely shares the key. -/
theorem c1_overwritten_partition_from_overrides {α : Type} [MediaKey α]
    (c ov : List α) (hnd : (keys c).Nodup) :
    ∀ x ∈ overwrittenPartOf (applyOverwrites c ov) ov, x ∈ ov := by
  intro x hx
  rw [overwrittenPartOf, List.mem_filter] at hx
  obtain ⟨hmem, hkeyb⟩ := hx
  have hkey : MediaKey.mal_id x ∈ keys ov := by simpa using hkeyb
  rw [applyOverwrites_region_append] at hmem
  rcases List.mem_append.mp hmem with hr | ha
  · have hG := @mem_foldl_replaceFirst _ _ ov
      (ov.filter fun o => decide (MediaKey.mal_id o ∈ keys c))
      (fun o ho => (List.mem_filter.mp ho).1) c hnd x hr
    rcases hG with h | ⟨hxc, hnk⟩
    · exact h
    · exfalso
      apply hnk
      obtain ⟨o, ho, hko⟩ := List.mem_map.mp hkey
      have hoc : MediaKey.mal_id o ∈ keys c := by
        rw [hko]; exact mem_keys_of_mem hxc
      have hof : o ∈ ov.filter fun o => decide (MediaKey.mal_id o ∈ keys c) := by
        rw [List.mem_filter]; exact ⟨ho, by simpa using hoc⟩
      rw [← hko]
      exact mem_keys_of_mem hof
  · exact (List.mem_filter.mp ha).1

/-- C1, witness for the amended theorem at a concrete input. -/
theorem c1_overwritten_partition_witness :
    (keys [(⟨"A", 5, 1, none, 1⟩ : Show)]).Nodup ∧
      (⟨"O", 5, 3, none, 1⟩ : Show) ∈
        overwrittenPartOf
          (applyOverwrites [(⟨"A", 5, 1, none, 1⟩ : Show)]
            [(⟨"O", 5, 3, none, 1⟩ : Show)])
          [(⟨"O", 5, 3, none, 1⟩ : Show)] ∧
      (⟨"O", 5, 3, none, 1⟩ : Show) ∈ [(⟨"O", 5, 3, none, 1⟩ : Show)] :=
  ⟨by decide, by decide,
    c1_overwritten_partition_from_overrides
      [(⟨"A", 5, 1, none, 1⟩ : Show)] [(⟨"O", 5, 3, none, 1⟩ : Show)]
      (by decide) _ (by decide)⟩

/-! Claim C2: idempotence of the overwrite merge. -/

/-- C2, counterexample to the frozen claim.  With two distinct overwrite
records sharing mal_id 5 and no candidates, the first merge appends both
(existing_mal_ids is computed once, before the loop); the second merge
replaces the first slot twice, leaving the second record in both slots:
merge(merge(c,o),o) = [O2, O2] while merge(c,o) = [O1, O2]. -/
theorem c2_merge_idempotent_counterexample :
    applyOverwrites
        (applyOverwrites ([] : List Show)
          [⟨"O1", 5, 1, none, 1⟩, ⟨"O2", 5, 2, none, 1⟩])
        [⟨"O1", 5, 1, none, 1⟩, ⟨"O2", 5, 2, none, 1⟩]
      ≠ applyOverwrites ([] : List Show)
          [⟨"O1", 5, 1, none, 1⟩, ⟨"O2", 5, 2, none, 1⟩] := by
  decide

/-- C2, amended: the merge is idempotent provided the overwrite records
carry pairwise distinct mal_ids (the shape an overwrite file keyed by
mal_id has); then merging the override list a second time replaces every
key with the record it already holds: merge(merge(c,o),o) = merge(c,o). -/
theorem c2_merge_idempotent {α : Type} [MediaKey α] (c ov : List α)
    (hnd : (keys ov).Nodup) :
    applyOverwrites (applyOverwrites c ov) ov = applyOverwrites c ov := by
  by_cases hov : ov.isEmpty
  · rw [applyOverwrites, if_pos hov]
  · have hreg := applyOverwrites_region_append c ov
    set r := applyOverwrites c ov with hr
    rw [applyOverwrites, if_neg hov]
    apply foldl_fixed
    intro o ho
    have hko : MediaKey.mal_id o ∈ keys r := by
      rw [hreg, keys_append, List.mem_append]
      by_cases hc : MediaKey.mal_id o ∈ keys c
      · left; rw [keys_mergeRegion]; exact hc
      · right
        refine mem_keys_of_mem ?_
        rw [List.mem_filter]
        exact ⟨ho, by simpa using hc⟩
    rw [overwriteStep, if_pos hko]
    apply replaceFirst_of_find?_self
    by_cases hc : MediaKey.mal_id o ∈ keys c
    · have hfilt : o ∈ ov.filter fun o => decide (MediaKey.mal_id o ∈ keys c) := by
        rw [List.mem_filter]; exact ⟨ho, by simpa using hc⟩
      have hnd' :
          (keys (ov.filter fun o => decide (MediaKey.mal_id o ∈ keys c))).Nodup :=
        nodup_keys_filter _ hnd
      have hmem : ∀ o' ∈ ov.filter fun o => decide (MediaKey.mal_id o ∈ keys c),
          MediaKey.mal_id o' ∈ keys c := by
        intro o' h
        have := (List.mem_filter.mp h).2
        simpa using this
      have hfind :
          (mergeRegion c ov).find? (keyPred (MediaKey.mal_id o)) = some o := by
        rw [mergeRegion]
        exact find?_foldl_replaceFirst_mem _ hnd' c hmem o hfilt
      rw [hreg]
      exact find?_append_some hfind
    · have hnone :
          (mergeRegion c ov).find? (keyPred (MediaKey.mal_id o)) = none := by
        rw [List.find?_eq_none]
        intro x hx
        have hxc : MediaKey.mal_id x ∈ keys c := by
          have := mem_keys_of_mem hx
          rwa [keys_mergeRegion] at this
        simp only [keyPred, beq_iff_eq]
        intro he
        exact hc (he ▸ hxc)
      have happ : o ∈ ov.filter fun o => decide (MediaKey.mal_id o ∉ keys c) := by
        rw [List.mem_filter]; exact ⟨ho, by simpa using hc⟩
      have hnd2 :
          (keys (ov.filter fun o => decide (MediaKey.mal_id o ∉ keys c))).Nodup :=
        nodup_keys_filter _ hnd
      rw [hreg, find?_append_none hnone]
      exact find?_of_nodup_mem hnd2 happ

/-- C2, witness for the amended theorem at a concrete input. -/
theorem c2_merge_idempotent_witness :
    (keys [(⟨"O", 5, 3, none, 1⟩ : Show), ⟨"N", 9, 4, none, 1⟩]).Nodup ∧
      applyOverwrites
          (applyOverwrites [(⟨"A", 5, 1, none, 1⟩ : Show)]
            [⟨"O", 5, 3, none, 1⟩, ⟨"N", 9, 4, none, 1⟩])
          [⟨"O", 5, 3, none, 1⟩, ⟨"N", 9, 4, none, 1⟩]
        = applyOverwrites [(⟨"A", 5, 1, none, 1⟩ : Show)]
            [⟨"O", 5, 3, none, 1⟩, ⟨"N", 9, 4, none, 1⟩] :=
  ⟨by decide,
    c2_merge_idempotent [(⟨"A", 5, 1, none, 1⟩ : Show)]
      [⟨"O", 5, 3, none, 1⟩, ⟨"N", 9, 4, none, 1⟩] (by decide)⟩

/-! Claim C7: ordering of the merge result. -/

/-- C7: the merge result decomposes as a region aligned position by
position with the original candidates followed by the overrides whose
key matches no candidate, in override-list order.  In the region, each
slot holds either the untouched candidate itself or an override sharing
the replaced candidate's mal_id (a replacement occupies the replaced
candidate's position). -/
theorem c7_merge_ordering {α : Type} [MediaKey α] (c ov : List α) :
    applyOverwrites c ov
        = mergeRegion c ov
          ++ ov.filter (fun o => decide (MediaKey.mal_id o ∉ keys c)) ∧
      List.Forall₂
        (fun x y => x = y ∨ (x ∈ ov ∧ MediaKey.mal_id x = MediaKey.mal_id y))
        (mergeRegion c ov) c :=
  ⟨applyOverwrites_region_append c ov, mergeRegion_forall₂ c ov⟩

/-! Claim C5: rules with an empty condition list never fire. -/

/-- C5: in every phase, an AND/ALL rule with an empty condition list
never fires (the `conditions and all(...)` guard of line 248 is falsy on
an empty list), and an OR/ANY rule with an empty condition list never
fires (`any` over an empty list, line 254); such a rule alone never
causes a record to be ignored. -/
theorem c5_empty_conditions_never_fire {α : Type} [MediaAttrs α] (item : α)
    (rule : IgnoreRule) (phase : String)
    (_hphase : phase = "remote" ∨ phase = "all" ∨ phase = "local")
    (hc : rule.conditions = [])
    (_ht : rule.type = "AND" ∨ rule.type = "ALL" ∨
      rule.type = "OR" ∨ rule.type = "ANY") :
    ruleFires item rule phase = false ∧
      shouldIgnoreItem item [rule] phase = false := by
  have h1 : ruleFires item rule phase = false := by
    rw [ruleFires]
    split
    · rfl
    · split
      · simp [hc]
      · split
        · simp [hc]
        · rfl
  exact ⟨h1, by simp [shouldIgnoreItem, h1]⟩

/-- C5, witness at a concrete record, rule and phase. -/
theorem c5_empty_conditions_witness :
    (IgnoreRule.mk "all" "AND" [] "d").conditions = [] ∧
      ruleFires (⟨"A", 1, 1, none, 1⟩ : Show)
        (IgnoreRule.mk "all" "AND" [] "d") "remote" = false ∧
      shouldIgnoreItem (⟨"A", 1, 1, none, 1⟩ : Show)
        [IgnoreRule.mk "all" "AND" [] "d"] "remote" = false := by
  refine ⟨rfl, ?_⟩
  exact c5_empty_conditions_never_fire (⟨"A", 1, 1, none, 1⟩ : Show)
    (IgnoreRule.mk "all" "AND" [] "d") "remote" (Or.inl rfl) rfl (Or.inl rfl)

/-! Claim C6: rules scoped "all" fire phase-independently. -/

/-- C6: a rule whose provenance scope (its `source` field) is "all"
passes the applicability test `rule["source"] in ["all", source]`
(line 240) in every phase, and the firing body never reads the phase, so
its outcome on a given record is the same in phases "remote", "all" and
"local" (indeed for any two phase strings). -/
theorem c6_scope_all_phase_independent {α : Type} [MediaAttrs α] (item : α)
    (rule : IgnoreRule) (hall : rule.source = "all") (p q : String) :
    ruleFires item rule p = ruleFires item rule q := by
  rw [ruleFires, ruleFires, hall]
  simp

/-- C6, witness at a concrete record and rule, with phases "remote" and
"local". -/
theorem c6_scope_all_witness :
    (IgnoreRule.mk "all" "OR" [[("title", JVal.s "X")]] "d").source = "all" ∧
      ruleFires (⟨"A", 1, 1, none, 1⟩ : Show)
          (IgnoreRule.mk "all" "OR" [[("title", JVal.s "X")]] "d") "remote"
        = ruleFires (⟨"A", 1, 1, none, 1⟩ : Show)
            (IgnoreRule.mk "all" "OR" [[("title", JVal.s "X")]] "d") "local" :=
  ⟨rfl, c6_scope_all_phase_independent (⟨"A", 1, 1, none, 1⟩ : Show)
    (IgnoreRule.mk "all" "OR" [[("title", JVal.s "X")]] "d") rfl "remote" "local"⟩

/-! Claim C9: an absent rule or overwrite file acts as an empty set. -/

/-- C9: a missing file is read as the empty list without error
(read_json catches FileNotFoundError, lines 151-153), so the filter
phase returns its input unchanged (the early return of line 263), the
merge returns the candidates unchanged (the early return of line 289),
and the run continues without error. -/
theorem c9_absent_files_act_empty {α : Type} [MediaAttrs α] [MediaKey α]
    (data : List α) (phase : String) :
    filterItemsFromFile FileContent.absent data phase = Except.ok data ∧
      applyOverwritesFromFile FileContent.absent data = Except.ok data ∧
      readJson (FileContent.absent : FileContent (List IgnoreRule))
        = Except.ok [] :=
  ⟨rfl, rfl, rfl⟩

/-! Claim C10: slugify of the empty title. -/

/-- C10: slugify applied to the empty string returns None via the
`not title` guard of line 107 — the same non-error outcome as a
digits-only title — and in particular not an empty slug. -/
theorem c10_slugify_empty_title (maps : List (Char × String)) :
    slugify maps "" = none ∧ slugify maps "123" = none ∧
      slugify maps "" ≠ some "" := by
  refine ⟨rfl, rfl, ?_⟩
  intro h
  exact Option.noConfusion h

/-! Claim C3: failure of one media kind and the fate of the other. -/

/-- C3, counterexample to the frozen claim.  A processing function whose
movies run raises a network error while its shows run would succeed: run
iterates ["movies", "shows"] inside a single try and re-raises
(lines 480-490), so the whole run aborts with the movies error, no shows
output is produced and no partial success is reported — the other kind
is not processed to completion. -/
theorem c3_run_counterexample :
    runAll (fun k => match k with
        | MediaLiteral.movies =>
            Except.error (AniTraktError.network "fetch failed")
        | MediaLiteral.shows => Except.ok [(⟨"A", 1, 1, none, 1⟩ : Show)])
      = ([], some (AniTraktError.network "fetch failed")) ∧
      (fun k => match k with
        | MediaLiteral.movies =>
            Except.error (AniTraktError.network "fetch failed")
        | MediaLiteral.shows => Except.ok [(⟨"A", 1, 1, none, 1⟩ : Show)])
        MediaLiteral.shows
      = Except.ok [(⟨"A", 1, 1, none, 1⟩ : Show)] :=
  ⟨rfl, rfl⟩

/-- C3, amended: a fatal error while processing a media kind aborts the
entire run at that point: the failing kind produces no output, kinds
processed before it keep their already-written outputs, and kinds after
it are never processed; only a fully successful loop reports success. -/
theorem c3_first_error_aborts_run {β : Type}
    (proc : MediaLiteral → Except AniTraktError β) :
    (∀ e, proc MediaLiteral.movies = Except.error e →
        runAll proc = ([], some e)) ∧
      (∀ m e, proc MediaLiteral.movies = Except.ok m →
        proc MediaLiteral.shows = Except.error e →
        runAll proc = ([(MediaLiteral.movies, m)], some e)) ∧
      (∀ m s, proc MediaLiteral.movies = Except.ok m →
        proc MediaLiteral.shows = Except.ok s →
        runAll proc = ([(MediaLiteral.movies, m), (MediaLiteral.shows, s)], none)) := by
  refine ⟨?_, ?_, ?_⟩
  · intro e h
    simp [runAll, runKindsList, h]
  · intro m e h h'
    simp [runAll, runKindsList, h, h']
  · intro m s h h'
    simp [runAll, runKindsList, h, h']

/-! Claim C4: fragment failures in multi-season rows. -/

/-- C4, counterexample to the frozen claim.  A row whose first fragment
carries a non-integer identifier segment ("abc") and whose second
fragment is well-formed yields no records at all: the int() failure
raises out of the fragment loop (there is no per-fragment handler,
lines 375-393), parse_media catches it at row level and skips the whole
row.  The second conjunct shows the same well-formed fragment parses
fine on its own, so it is the row-level abort that discards it. -/
theorem c4_fragment_counterexample :
    parseMediaShows []
        [⟨some ⟨"t/123", "Trakt Show"⟩,
          [⟨some ⟨"a/abc", "Bad"⟩, "S1 x"⟩,
           ⟨some ⟨"a/45", "Good Show"⟩, "S2 x"⟩]⟩]
      = [] ∧
      parseShowRow []
          ⟨some ⟨"t/123", "Trakt Show"⟩,
            [⟨some ⟨"a/45", "Good Show"⟩, "S2 x"⟩]⟩
        = Except.ok [⟨"Good Show", 45, 123, some "trakt-show", 2⟩] := by
  exact ⟨by decide, by decide⟩

/-- C4, amended: only a fragment with no secondary-catalog link is
skipped independently (the continue of lines 379-380), the other
fragments of the row still yielding their records; a fragment whose
identifier segment or season token fails integer parsing aborts the
entire row, which is then logged and skipped as a unit by the row loop,
while the remaining rows still yield their records. -/
theorem c4_fragment_skip_and_row_abort :
    (∀ (cmap : List (Char × String)) (tid : Int) (ttext : String)
        (fs₁ fs₂ : List Fragment) (frag : Fragment), frag.malLink = none →
        parseFragments cmap tid ttext (fs₁ ++ frag :: fs₂)
          = parseFragments cmap tid ttext (fs₁ ++ fs₂)) ∧
      (∀ (cmap : List (Char × String)) (row : ShowRowData)
        (rows : List ShowRowData) (e : AniTraktError),
        parseShowRow cmap row = Except.error e →
        parseMediaShows cmap (row :: rows) = parseMediaShows cmap rows) := by
  constructor
  · intro cmap tid ttext fs₁ fs₂ frag hnone
    induction fs₁ with
    | nil =>
      simp only [List.nil_append, parseFragments, hnone]
    | cons f fs ih =>
      simp only [List.cons_append, parseFragments, List.append_eq]
      cases hml : f.malLink with
      | none => exact ih
      | some ml => rw [ih]
  · intro cmap row rows e h
    simp [parseMediaShows, h]

/-! Lemmas about the slug pipeline, toward claim C8. -/

theorem slugifyChars_eq (maps : List (Char × String)) (t : List Char) :
    slugifyChars maps t
      = trimEnds (fun c => c == '-')
          (collapseRuns
            ((applyCharMaps maps
              (trimEnds Char.isWhitespace (t.map Char.toLower))).map
              (fun c => if isWordChar c || c.isWhitespace then c else '-'))) :=
  rfl

theorem head?_dropWhile {p : Char → Bool} :
    ∀ {l : List Char} {c : Char}, (l.dropWhile p).head? = some c → p c = false := by
  intro l
  induction l with
  | nil => intro c h; simp [List.dropWhile] at h
  | cons a as ih =>
    intro c h
    by_cases hp : p a = true
    · rw [List.dropWhile_cons, if_pos hp] at h
      exact ih h
    · rw [List.dropWhile_cons, if_neg hp, List.head?_cons] at h
      obtain rfl := Option.some.inj h
      simpa using hp

theorem head?_append_left {γ : Type} {l₁ l₂ : List γ} {c : γ}
    (h : l₁.head? = some c) : (l₁ ++ l₂).head? = some c := by
  cases l₁ with
  | nil => cases h
  | cons a as => simpa using h

theorem exists_dropWhile_decomp {γ : Type} (p : γ → Bool) (l : List γ) :
    ∃ t, l = t ++ l.dropWhile p := by
  induction l with
  | nil => exact ⟨[], rfl⟩
  | cons a as ih =>
    by_cases hp : p a = true
    · obtain ⟨t, ht⟩ := ih
      refine ⟨a :: t, ?_⟩
      rw [List.dropWhile_cons, if_pos hp]
      simpa using ht
    · exact ⟨[], by simp [List.dropWhile_cons, hp]⟩

theorem head?_dropTrailing {p : Char → Bool} {l : List Char} {c : Char}
    (h : (dropTrailing p l).head? = some c) : l.head? = some c := by
  obtain ⟨t, ht⟩ := exists_dropWhile_decomp p l.reverse
  have hl : l = (l.reverse.dropWhile p).reverse ++ t.reverse := by
    have h2 := congrArg List.reverse ht
    rwa [List.reverse_reverse, List.reverse_append] at h2
  rw [hl]
  exact head?_append_left h

theorem getLast?_dropTrailing_not {p : Char → Bool} {l : List Char} {c : Char}
    (h : (dropTrailing p l).getLast? = some c) : p c = false := by
  rw [dropTrailing, List.getLast?_reverse] at h
  exact head?_dropWhile h

theorem head?_trimEnds_not {p : Char → Bool} {l : List Char} {c : Char}
    (h : (trimEnds p l).head? = some c) : p c = false :=
  head?_dropWhile (head?_dropTrailing h)

theorem getLast?_trimEnds_not {p : Char → Bool} {l : List Char} {c : Char}
    (h : (trimEnds p l).getLast? = some c) : p c = false :=
  getLast?_dropTrailing_not h

theorem chain'_dropWhile {R : Char → Char → Prop} {p : Char → Bool}
    {l : List Char} (h : List.Chain' R l) : List.Chain' R (l.dropWhile p) := by
  induction l with
  | nil => exact h
  | cons a as ih =>
    rw [List.dropWhile_cons]
    split
    · exact ih (List.chain'_cons'.mp h).2
    · exact h

theorem chain'_reverse_of {R : Char → Char → Prop}
    (hsym : ∀ a b, R a b → R b a) {l : List Char}
    (h : List.Chain' R l) : List.Chain' R l.reverse := by
  rw [List.chain'_reverse]
  exact List.Chain'.imp (fun a b hab => hsym a b hab) h

theorem chain'_trimEnds {R : Char → Char → Prop}
    (hsym : ∀ a b, R a b → R b a) {p : Char → Bool} {l : List Char}
    (h : List.Chain' R l) : List.Chain' R (trimEnds p l) := by
  rw [trimEnds, dropTrailing]
  exact chain'_reverse_of hsym (chain'_dropWhile (chain'_reverse_of hsym (chain'_dropWhile h)))

theorem collapseRunsAux_true_head {l : List Char} {c : Char}
    (h : (collapseRunsAux true l).head? = some c) : isSepChar c = false := by
  induction l with
  | nil => simp [collapseRunsAux] at h
  | cons a as ih =>
    by_cases ha : isSepChar a = true
    · rw [show collapseRunsAux true (a :: as) = collapseRunsAux true as from by
        simp [collapseRunsAux, ha]] at h
      exact ih h
    · rw [show collapseRunsAux true (a :: as) = a :: collapseRunsAux false as from by
        simp [collapseRunsAux, ha]] at h
      rw [List.head?_cons] at h
      obtain rfl := Option.some.inj h
      simpa using ha

theorem chain'_collapseRunsAux (l : List Char) :
    ∀ b : Bool,
      List.Chain' (fun a c => isSepChar a = false ∨ isSepChar c = false)
        (collapseRunsAux b l) := by
  induction l with
  | nil => intro b; simp [collapseRunsAux]
  | cons a as ih =>
    intro b
    by_cases ha : isSepChar a = true
    · cases b with
      | true =>
        rw [show collapseRunsAux true (a :: as) = collapseRunsAux true as from by
          simp [collapseRunsAux, ha]]
        exact ih true
      | false =>
        rw [show collapseRunsAux false (a :: as)
            = '-' :: collapseRunsAux true as from by simp [collapseRunsAux, ha]]
        refine List.chain'_cons'.mpr ⟨?_, ih true⟩
        intro y hy
        exact Or.inr (collapseRunsAux_true_head (Option.mem_def.mp hy))
    · rw [show collapseRunsAux b (a :: as) = a :: collapseRunsAux false as from by
        simp [collapseRunsAux, ha]]
      refine List.chain'_cons'.mpr ⟨?_, ih false⟩
      intro y _
      exact Or.inl (by simpa using ha)

/-! Claim C8: shape of the produced slug. -/

/-- C8: every string slugify returns — in particular the one returned
for a non-empty title that is not composed solely of digit characters —
has no leading dash, no trailing dash and no two consecutive dashes:
after line 119 collapses every separator run to a single dash no two
separators are adjacent, and line 120 strips the end dashes.  Stated
over the returned string itself, the property holds whatever the numeric
guard decides, so it does not lean on the guard's digit class. -/
theorem c8_slug_dash_shape (maps : List (Char × String)) (t s : String)
    (h : slugify maps t = some s) :
    (∀ c, s.data.head? = some c → c ≠ '-') ∧
      (∀ c, s.data.getLast? = some c → c ≠ '-') ∧
      List.Chain' (fun a b => ¬(a = '-' ∧ b = '-')) s.data := by
  rw [slugify] at h
  split at h
  · cases h
  · obtain rfl : String.mk (slugifyChars maps t.data) = s := Option.some.inj h
    refine ⟨?_, ?_, ?_⟩
    · intro c hc heq
      have hc' : (slugifyChars maps t.data).head? = some c := hc
      rw [slugifyChars_eq] at hc'
      have hdash := head?_trimEnds_not hc'
      rw [heq] at hdash
      simp at hdash
    · intro c hc heq
      have hc' : (slugifyChars maps t.data).getLast? = some c := hc
      rw [slugifyChars_eq] at hc'
      have hdash := getLast?_trimEnds_not hc'
      rw [heq] at hdash
      simp at hdash
    · show List.Chain' (fun a b => ¬(a = '-' ∧ b = '-')) (slugifyChars maps t.data)
      rw [slugifyChars_eq]
      have hsym : ∀ a b : Char,
          (isSepChar a = false ∨ isSepChar b = false) →
          (isSepChar b = false ∨ isSepChar a = false) :=
        fun a b h => Or.symm h
      refine List.Chain'.imp ?_ (chain'_trimEnds hsym (chain'_collapseRunsAux _ false))
      rintro a b hab ⟨rfl, rfl⟩
      rcases hab with h | h <;> simp [isSepChar] at h

/-- C8, witness: a concrete mixed title produces the slug "hello-world",
which satisfies the dash conditions. -/
theorem c8_slug_dash_witness :
    slugify [] "Hello, World!" = some "hello-world" ∧
      ((∀ c, "hello-world".data.head? = some c → c ≠ '-') ∧
        (∀ c, "hello-world".data.getLast? = some c → c ≠ '-') ∧
        List.Chain' (fun a b => ¬(a = '-' ∧ b = '-')) "hello-world".data) :=
  ⟨by decide, c8_slug_dash_shape [] "Hello, World!" "hello-world" (by decide)⟩

end AniTrakt
